import Mathlib

/-!
# Verification of the query-builder core of `prometheus-http-query`

Shallow embedding of `src/query.rs`: the `InstantQueryBuilder` fluent
builder (metric-name validation, label matchers, time specifier, PromQL
duration parsing), the `InstantQuery`/`RangeQuery` value types and their
wire-parameter accessors.  Rust strings are embedded as `String` (with
tokenization performed on `List Char`, mirroring byte-wise `&str`
scanning on the ASCII inputs involved), `usize` as `Nat` with the
`2^64` overflow bound of `str::parse::<usize>`, `Option`/`Result` as
`Option`/`Except`.
-/

/-- `BuilderError` from `src/error.rs` (the four variants the spec names). -/
inductive BuilderError where
  | InvalidMetricName
  | InvalidTimeSpecifier
  | InvalidTimeDuration
  | IllegalVectorSelector
deriving DecidableEq, Repr

/-- `enum Label<'c>` from `src/query.rs`: the four matcher kinds, each
carrying a (label name, value) pair. -/
inductive Label where
  | With (name value : String)
  | Without (name value : String)
  | Matches (name value : String)
  | Clashes (name value : String)
deriving DecidableEq, Repr

/-- `enum Duration` from `src/query.rs`, in declaration order (the derived
`Ord` compares the variant index first, then the magnitude). -/
inductive Duration where
  | Milliseconds (n : Nat)
  | Seconds (n : Nat)
  | Minutes (n : Nat)
  | Hours (n : Nat)
  | Days (n : Nat)
  | Weeks (n : Nat)
  | Years (n : Nat)
deriving DecidableEq, Repr

/-- Variant index of the Rust `derive(Ord)` on `Duration`. -/
def Duration.rank : Duration → Nat
  | .Milliseconds _ => 0
  | .Seconds _ => 1
  | .Minutes _ => 2
  | .Hours _ => 3
  | .Days _ => 4
  | .Weeks _ => 5
  | .Years _ => 6

/-- Magnitude payload of a `Duration`. -/
def Duration.mag : Duration → Nat
  | .Milliseconds n => n
  | .Seconds n => n
  | .Minutes n => n
  | .Hours n => n
  | .Days n => n
  | .Weeks n => n
  | .Years n => n

/-- The `<=` of the derived `Ord` on `Duration`: variant order first,
then magnitude.  `sort_unstable` sorts with respect to this order. -/
def Duration.leb (a b : Duration) : Bool :=
  a.rank < b.rank || (a.rank == b.rank && a.mag ≤ b.mag)

/-- `impl fmt::Display for Duration`: `<magnitude><suffix>`. -/
def Duration.render : Duration → String
  | .Milliseconds d => Nat.repr d ++ "ms"
  | .Seconds d => Nat.repr d ++ "s"
  | .Minutes d => Nat.repr d ++ "m"
  | .Hours d => Nat.repr d ++ "h"
  | .Days d => Nat.repr d ++ "d"
  | .Weeks d => Nat.repr d ++ "w"
  | .Years d => Nat.repr d ++ "y"

/-- The char set `['s', 'm', 'h', 'd', 'w', 'y']` used as the
`split_inclusive` pattern in `InstantQueryBuilder::timeout`. -/
def isUnitChar (c : Char) : Bool :=
  c = 's' || c = 'm' || c = 'h' || c = 'd' || c = 'w' || c = 'y'

/-- `str::split_inclusive` with a char-set pattern: split after every
char satisfying `p`, keeping the delimiter, no trailing empty piece.
`acc` holds the current chunk reversed. -/
def splitInclCharAux (p : Char → Bool) : List Char → List Char → List (List Char)
  | acc, [] => if acc.isEmpty then [] else [acc.reverse]
  | acc, c :: rest =>
      if p c then (acc.reverse ++ [c]) :: splitInclCharAux p [] rest
      else splitInclCharAux p (c :: acc) rest

def splitInclChar (p : Char → Bool) (s : List Char) : List (List Char) :=
  splitInclCharAux p [] s

/-- `str::split_inclusive("ms")`: split after every (leftmost,
non-overlapping) occurrence of the two-char pattern `ms`. -/
def splitInclMsAux : List Char → List Char → List (List Char)
  | acc, [] => if acc.isEmpty then [] else [acc.reverse]
  | acc, [c] => [(c :: acc).reverse]
  | acc, c :: c2 :: rest =>
    if c = 'm' ∧ c2 = 's' then (acc.reverse ++ ['m', 's']) :: splitInclMsAux [] rest
    else splitInclMsAux (c :: acc) (c2 :: rest)

def splitInclMs (s : List Char) : List (List Char) :=
  splitInclMsAux [] s

/-- The tokenization pipeline of `InstantQueryBuilder::timeout`:
`split_inclusive` on the unit chars, then `split_inclusive("ms")` on
each piece, flattened. -/
def tokenize (s : List Char) : List (List Char) :=
  ((splitInclChar isUnitChar s).map splitInclMs).flatten

/-- `str::parse::<usize>`: optional leading `+`, then a nonempty digit
string, value below `2^64` (overflow is an error). -/
def parseUsize? (s : List Char) : Option Nat :=
  let digits := match s with
    | '+' :: rest => rest
    | other => other
  if digits.isEmpty then none
  else if digits.all Char.isDigit then
    let n := digits.foldl (fun n c => n * 10 + (c.toNat - 48)) 0
    if n < 2 ^ 64 then some n else none
  else none

/-- `d.ends_with("ms")`. -/
def endsWithMs (d : List Char) : Bool :=
  match d.reverse with
  | c2 :: c1 :: _ => c1 == 'm' && c2 == 's'
  | _ => false

/-- The input has an adjacent `m`,`s` pair, i.e. contains `"ms"` as a
substring. -/
def containsMS : List Char → Bool
  | [] => false
  | [_] => false
  | c :: c2 :: rest => (c == 'm' && c2 == 's') || containsMS (c2 :: rest)

/-- `d.ends_with(c)` for a single char. -/
def endsWithChar (d : List Char) (c : Char) : Bool :=
  match d.reverse with
  | x :: _ => x = c
  | [] => false

/-- The per-token suffix dispatch inside `InstantQueryBuilder::timeout`:
`ends_with("ms")` first, then the single-letter suffixes in source
order; strip the suffix and parse the prefix as `usize`. -/
def parseDurationToken (d : List Char) : Except BuilderError Duration :=
  if endsWithMs d then
    match parseUsize? (d.dropLast.dropLast) with
    | some n => .ok (.Milliseconds n)
    | none => .error .InvalidTimeDuration
  else if endsWithChar d 's' then
    match parseUsize? d.dropLast with
    | some n => .ok (.Seconds n)
    | none => .error .InvalidTimeDuration
  else if endsWithChar d 'm' then
    match parseUsize? d.dropLast with
    | some n => .ok (.Minutes n)
    | none => .error .InvalidTimeDuration
  else if endsWithChar d 'h' then
    match parseUsize? d.dropLast with
    | some n => .ok (.Hours n)
    | none => .error .InvalidTimeDuration
  else if endsWithChar d 'd' then
    match parseUsize? d.dropLast with
    | some n => .ok (.Days n)
    | none => .error .InvalidTimeDuration
  else if endsWithChar d 'w' then
    match parseUsize? d.dropLast with
    | some n => .ok (.Weeks n)
    | none => .error .InvalidTimeDuration
  else if endsWithChar d 'y' then
    match parseUsize? d.dropLast with
    | some n => .ok (.Years n)
    | none => .error .InvalidTimeDuration
  else .error .InvalidTimeDuration

/-- `collect::<Result<Vec<Duration>, BuilderError>>()` over the token
stream: first error aborts the whole parse. -/
def collectDurations : List (List Char) → Except BuilderError (List Duration)
  | [] => .ok []
  | t :: ts =>
    match parseDurationToken t with
    | .error e => .error e
    | .ok d =>
      match collectDurations ts with
      | .error e => .error e
      | .ok ds => .ok (d :: ds)

/-- Ordered insertion with respect to the derived `Ord`. -/
def insertDuration (d : Duration) : List Duration → List Duration
  | [] => [d]
  | x :: xs => if Duration.leb d x then d :: x :: xs else x :: insertDuration d xs

/-- `sort_unstable` with the derived `Ord`.  The derived order is total
and antisymmetric (`leb a b` and `leb b a` force the same variant and
the same magnitude, hence `a = b`), so the sorted permutation of any
input is unique and any comparison sort — here insertion sort —
produces exactly the list `sort_unstable` produces. -/
def sortDurations : List Duration → List Duration
  | [] => []
  | d :: ds => insertDuration d (sortDurations ds)

/-- `struct InstantQuery` (owned strings). -/
structure InstantQuery where
  query : String
  time : Option String
  timeout : Option String
deriving DecidableEq, Repr

/-- `struct RangeQuery<'a>`. -/
structure RangeQuery where
  query : String
  start : String
  «end» : String
  step : String
  timeout : Option String
deriving DecidableEq, Repr

/-- `InstantQuery::get_query_params`: `query` always, then `time` and
`timeout` when set. -/
def InstantQuery.get_query_params (q : InstantQuery) : List (String × String) :=
  let params := [("query", q.query)]
  let params := match q.time with
    | some t => params ++ [("time", t)]
    | none => params
  match q.timeout with
  | some t => params ++ [("timeout", t)]
  | none => params

def InstantQuery.get_query_endpoint (_ : InstantQuery) : String :=
  "/query"

/-- `RangeQuery::get_query_params`: `query`, `start`, `end`, `step`
always, then `timeout` when set. -/
def RangeQuery.get_query_params (q : RangeQuery) : List (String × String) :=
  let params := [("query", q.query), ("start", q.start), ("end", q.«end»), ("step", q.step)]
  match q.timeout with
  | some t => params ++ [("timeout", t)]
  | none => params

def RangeQuery.get_query_endpoint (_ : RangeQuery) : String :=
  "/query_range"

/-- `struct InstantQueryBuilder<'b>`. -/
structure InstantQueryBuilder where
  metric : Option String
  labels : Option (List Label)
  time : Option String
  timeout : Option (List Duration)
deriving DecidableEq, Repr

/-- `impl Default for InstantQueryBuilder`. -/
def InstantQueryBuilder.mkDefault : InstantQueryBuilder :=
  ⟨none, none, none, none⟩

/-- `InstantQuery::builder()`. -/
def InstantQuery.builder : InstantQueryBuilder :=
  InstantQueryBuilder.mkDefault

/-- `InstantQueryBuilder::metric`: reject the five reserved PromQL
keywords, otherwise store the name verbatim. -/
def InstantQueryBuilder.metricOp (b : InstantQueryBuilder) (metric : String) :
    Except BuilderError InstantQueryBuilder :=
  if metric = "bool" ∨ metric = "on" ∨ metric = "ignoring" ∨
      metric = "group_left" ∨ metric = "group_right" then
    .error .InvalidMetricName
  else .ok { b with metric := some metric }

/-- `InstantQueryBuilder::with_label`: append an equality matcher,
seeding the sequence on first use. -/
def InstantQueryBuilder.with_label (b : InstantQueryBuilder) (label value : String) :
    InstantQueryBuilder :=
  match b.labels with
  | some ls => { b with labels := some (ls ++ [Label.With label value]) }
  | none => { b with labels := some [Label.With label value] }

/-- `InstantQueryBuilder::without_label`. -/
def InstantQueryBuilder.without_label (b : InstantQueryBuilder) (label value : String) :
    InstantQueryBuilder :=
  match b.labels with
  | some ls => { b with labels := some (ls ++ [Label.Without label value]) }
  | none => { b with labels := some [Label.Without label value] }

/-- `InstantQueryBuilder::match_label`. -/
def InstantQueryBuilder.match_label (b : InstantQueryBuilder) (label value : String) :
    InstantQueryBuilder :=
  match b.labels with
  | some ls => { b with labels := some (ls ++ [Label.Matches label value]) }
  | none => { b with labels := some [Label.Matches label value] }

/-- `InstantQueryBuilder::no_match_label`: appends a `Clashes` entry to
an existing sequence, but seeds an absent sequence with a `Matches`
entry (faithful to the source, where the `None` arm pushes
`Label::Matches`). -/
def InstantQueryBuilder.no_match_label (b : InstantQueryBuilder) (label value : String) :
    InstantQueryBuilder :=
  match b.labels with
  | some ls => { b with labels := some (ls ++ [Label.Clashes label value]) }
  | none => { b with labels := some [Label.Matches label value] }

/-- `InstantQueryBuilder::at`.  The two canonicalizing parses it
delegates to are external library code, not part of this repository:
`fparse` stands for `f64::from_str` followed by `f64::to_string` on
success, and `dtparse` for `chrono::DateTime::parse_from_rfc3339`
followed by `to_rfc3339`.  The control flow around them — numeric
first, RFC3339 as fallback, `InvalidTimeSpecifier` when both fail — is
the repository's code and is embedded exactly. -/
def InstantQueryBuilder.atOp (fparse dtparse : String → Option String)
    (b : InstantQueryBuilder) (time : String) :
    Except BuilderError InstantQueryBuilder :=
  match fparse time with
  | some t => .ok { b with time := some t }
  | none =>
    match dtparse time with
    | some t => .ok { b with time := some t }
    | none => .error .InvalidTimeSpecifier

/-- `InstantQueryBuilder::timeout`: tokenize, parse each token, and on
full success sort and store; on any parse failure leave the field
untouched.  Always returns `Ok`. -/
def InstantQueryBuilder.timeoutOp (b : InstantQueryBuilder) (timeout : String) :
    Except BuilderError InstantQueryBuilder :=
  match collectDurations (tokenize timeout.data) with
  | .ok d => .ok { b with timeout := some (sortDurations d) }
  | .error _ => .ok b

/-- The matcher serialization inside `InstantQueryBuilder::build`:
`name<op>"value"` per kind. -/
def Label.render : Label → String
  | .With n v => n ++ "=\"" ++ v ++ "\""
  | .Without n v => n ++ "!=\"" ++ v ++ "\""
  | .Matches n v => n ++ "=~\"" ++ v ++ "\""
  | .Clashes n v => n ++ "!~\"" ++ v ++ "\""

/-- `join(",")` over the rendered matchers. -/
def renderLabels (ls : List Label) : String :=
  String.intercalate "," (ls.map Label.render)

/-- `concat()` over the rendered durations. -/
def renderTimeout (ds : List Duration) : String :=
  String.join (ds.map Duration.render)

/-- `InstantQueryBuilder::build`. -/
def InstantQueryBuilder.build (b : InstantQueryBuilder) :
    Except BuilderError InstantQuery :=
  let timeout := b.timeout.map renderTimeout
  let labels := b.labels.map renderLabels
  match b.metric with
  | some m =>
    match labels with
    | some l => .ok ⟨m ++ "\x7b" ++ l ++ "\x7d", b.time, timeout⟩
    | none => .ok ⟨m, b.time, timeout⟩
  | none =>
    match labels with
    | some l => .ok ⟨"\x7b" ++ l ++ "\x7d", b.time, timeout⟩
    | none => .error .IllegalVectorSelector

/-! ## Tokenizer and sorting lemmas -/

/-- Membership is preserved by ordered insertion. -/
theorem mem_insertDuration {x d : Duration} {l : List Duration} :
    x ∈ insertDuration d l ↔ x = d ∨ x ∈ l := by
  induction l with
  | nil => simp [insertDuration]
  | cons y ys ih =>
    simp only [insertDuration]
    split
    · simp
    · simp [ih]
      tauto

/-- Membership is preserved by sorting. -/
theorem mem_sortDurations {x : Duration} {l : List Duration} :
    x ∈ sortDurations l ↔ x ∈ l := by
  induction l with
  | nil => simp [sortDurations]
  | cons d ds ih => simp [sortDurations, mem_insertDuration, ih]

/-- Every piece produced by the unit-char split carries chars
satisfying `p` only in its final position. -/
theorem splitInclCharAux_units_last (p : Char → Bool) (cs : List Char) :
    ∀ acc, (∀ c ∈ acc, p c = false) →
      ∀ t ∈ splitInclCharAux p acc cs, ∀ c ∈ t.dropLast, p c = false := by
  induction cs with
  | nil =>
    intro acc hacc t ht c hc
    by_cases he : acc.isEmpty <;> simp [splitInclCharAux, he] at ht
    subst ht
    exact hacc c (List.mem_reverse.mp (List.dropLast_subset _ hc))
  | cons x rest ih =>
    intro acc hacc t ht c hc
    by_cases hx : p x
    · simp only [splitInclCharAux, if_pos hx, List.mem_cons] at ht
      rcases ht with rfl | ht
      · rw [List.dropLast_concat] at hc
        exact hacc c (List.mem_reverse.mp hc)
      · exact ih [] (by simp) t ht c hc
    · simp only [splitInclCharAux, if_neg hx] at ht
      refine ih (x :: acc) ?_ t ht c hc
      intro c' hc'
      rcases List.mem_cons.mp hc' with rfl | hc'
      · simpa using hx
      · exact hacc c' hc'

/-- When the incoming chars have unit chars only in final position, the
`ms` split leaves that shape intact on every piece it emits. -/
theorem splitInclMsAux_units_last (acc t : List Char) :
    (∀ c ∈ (acc.reverse ++ t).dropLast, isUnitChar c = false) →
      ∀ u ∈ splitInclMsAux acc t, ∀ c ∈ u.dropLast, isUnitChar c = false := by
  induction acc, t using splitInclMsAux.induct with
  | case1 acc hemp =>
    intro h u hu
    simp [splitInclMsAux, hemp] at hu
  | case2 acc hemp =>
    intro h u hu c hc
    simp only [splitInclMsAux, if_neg hemp, List.mem_singleton] at hu
    subst hu
    exact h c (by simpa using hc)
  | case3 acc c0 =>
    intro h u hu c hc
    simp only [splitInclMsAux, List.mem_singleton] at hu
    subst hu
    exact h c (by simpa [List.reverse_cons] using hc)
  | case4 acc c0 c2 rest hms ih =>
    obtain ⟨rfl, rfl⟩ := hms
    intro h
    exact absurd (h 'm' (by simp)) (by decide)
  | case5 acc c0 c2 rest hms ih =>
    intro h u hu c hc
    simp only [splitInclMsAux, if_neg hms] at hu
    refine ih ?_ u hu c hc
    intro x hx
    apply h
    simpa [List.reverse_cons, List.append_assoc] using hx

/-- Every token of the `timeout` tokenizer has unit chars only in its
final position. -/
theorem tokenize_units_last (s : List Char) :
    ∀ t ∈ tokenize s, ∀ c ∈ t.dropLast, isUnitChar c = false := by
  intro t ht c hc
  simp only [tokenize, List.mem_flatten, List.mem_map] at ht
  obtain ⟨_, ⟨piece, hpiece, rfl⟩, hu⟩ := ht
  have hgood := splitInclCharAux_units_last isUnitChar s [] (by simp) piece hpiece
  exact splitInclMsAux_units_last [] piece (by simpa using hgood) t hu c hc

/-- A token whose unit chars sit only in final position cannot end in
`"ms"`. -/
theorem endsWithMs_eq_false_of_units_last {t : List Char}
    (h : ∀ c ∈ t.dropLast, isUnitChar c = false) : endsWithMs t = false := by
  unfold endsWithMs
  rcases hrev : t.reverse with _ | ⟨c2, _ | ⟨c1, l⟩⟩
  · rfl
  · rfl
  · have ht : t = (l.reverse ++ [c1]) ++ [c2] := by
      have := congrArg List.reverse hrev
      simpa [List.append_assoc] using this
    have hc1 : c1 ∈ t.dropLast := by
      rw [ht, List.dropLast_concat]
      simp
    have hval := h c1 hc1
    have hne : c1 ≠ 'm' := by
      intro hEq
      rw [hEq] at hval
      exact absurd hval (by decide)
    simp [hne]

/-- A token parsed to `Milliseconds` must end in `"ms"`. -/
theorem parseDurationToken_ms_shape {t : List Char} {n : Nat}
    (hok : parseDurationToken t = .ok (Duration.Milliseconds n)) :
    endsWithMs t = true := by
  unfold parseDurationToken at hok
  split at hok
  · assumption
  · exfalso
    repeat' split at hok
    all_goals simp_all

/-- A duration in a successful `collect` comes from some token. -/
theorem collectDurations_ok_mem {ts : List (List Char)} {l : List Duration}
    (h : collectDurations ts = .ok l) :
    ∀ d ∈ l, ∃ t ∈ ts, parseDurationToken t = .ok d := by
  induction ts generalizing l with
  | nil =>
    simp only [collectDurations, Except.ok.injEq] at h
    subst h
    simp
  | cons t ts ih =>
    intro d hd
    unfold collectDurations at h
    cases hp : parseDurationToken t <;> rw [hp] at h
    · simp at h
    · cases hc : collectDurations ts <;> rw [hc] at h
      · simp at h
      · simp only [Except.ok.injEq] at h
        subst h
        rcases List.mem_cons.mp hd with rfl | hd'
        · exact ⟨t, List.mem_cons_self t ts, hp⟩
        · obtain ⟨t', ht', h'⟩ := ih hc d hd'
          exact ⟨t', List.mem_cons_of_mem t ht', h'⟩

/-- One failing token makes the whole `collect` fail. -/
theorem collectDurations_error_of_mem {ts : List (List Char)} {u : List Char}
    {e : BuilderError} (hu : u ∈ ts) (he : parseDurationToken u = .error e) :
    ∃ e', collectDurations ts = .error e' := by
  induction ts with
  | nil => simp at hu
  | cons t ts ih =>
    unfold collectDurations
    cases hp : parseDurationToken t
    · exact ⟨_, rfl⟩
    · rcases List.mem_cons.mp hu with rfl | hu'
      · rw [hp] at he
        simp at he
      · obtain ⟨e', hc⟩ := ih hu'
        rw [hc]
        exact ⟨e', rfl⟩

/-- Any `"ms"` occurrence makes the unit-char split emit a bare `"s"`
piece. -/
theorem bare_s_of_containsMS (cs : List Char) :
    containsMS cs = true → ∀ acc, ['s'] ∈ splitInclCharAux isUnitChar acc cs := by
  induction cs using containsMS.induct with
  | case1 =>
    intro h
    simp [containsMS] at h
  | case2 c =>
    intro h
    simp [containsMS] at h
  | case3 c c2 rest ih =>
    intro h acc
    by_cases hms : c = 'm' ∧ c2 = 's'
    · obtain ⟨rfl, rfl⟩ := hms
      have hred : splitInclCharAux isUnitChar acc ('m' :: 's' :: rest) =
          (acc.reverse ++ ['m']) :: ['s'] :: splitInclCharAux isUnitChar [] rest := rfl
      rw [hred]
      exact List.mem_cons_of_mem _ (List.mem_cons_self _ _)
    · have h2 : containsMS (c2 :: rest) = true := by
        have h' : (c = 'm' ∧ c2 = 's') ∨ containsMS (c2 :: rest) = true := by
          simpa [containsMS] using h
        rcases h' with h1 | h1
        · exact absurd h1 hms
        · exact h1
      by_cases hc : isUnitChar c
      · simp only [splitInclCharAux, if_pos hc]
        exact List.mem_cons_of_mem _ (ih h2 [])
      · simp only [splitInclCharAux, if_neg hc]
        exact ih h2 (c :: acc)

/-- Any `"ms"` occurrence puts a bare `"s"` token in the token
stream. -/
theorem tokenize_has_bare_s {s : List Char} (h : containsMS s = true) :
    ['s'] ∈ tokenize s := by
  have hp := bare_s_of_containsMS s h []
  simp only [tokenize, List.mem_flatten]
  exact ⟨splitInclMs ['s'], List.mem_map_of_mem _ hp, by simp [splitInclMs, splitInclMsAux]⟩

/-- Two-element instance of the comma join. -/
theorem renderLabels_pair (a b : Label) :
    renderLabels [a, b] = Label.render a ++ "," ++ Label.render b := rfl

/-- C1 (actual code behavior at the spec's round-trip input): the
tokenizer splits on the single-letter unit chars first, so `"30s500ms"`
is severed into `"30s"`, `"500m"` and a bare `"s"` — not `"30s"` and
`"500ms"` — and the whole parse of `"1m30s500ms"` fails, leaving the
timeout field unset instead of producing `"500ms30s1m"`. -/
theorem timeout_ms_split_behavior :
    tokenize "30s500ms".data = [['3', '0', 's'], ['5', '0', '0', 'm'], ['s']] ∧
    collectDurations (tokenize "1m30s500ms".data) = .error BuilderError.InvalidTimeDuration ∧
    InstantQueryBuilder.mkDefault.timeoutOp "1m30s500ms" = .ok InstantQueryBuilder.mkDefault ∧
    InstantQueryBuilder.mkDefault.timeout = none :=
  ⟨rfl, rfl, rfl, rfl⟩

/-- C2: `build` yields `metric{matchers}` when both are set, `metric`
when only the metric is set, `{matchers}` when only matchers are set,
and fails with `IllegalVectorSelector` exactly when neither is
present. -/
theorem build_case_analysis (b : InstantQueryBuilder) :
    (∀ m ls, b.metric = some m → b.labels = some ls →
      b.build = .ok ⟨m ++ "\x7b" ++ renderLabels ls ++ "\x7d", b.time, b.timeout.map renderTimeout⟩) ∧
    (∀ m, b.metric = some m → b.labels = none →
      b.build = .ok ⟨m, b.time, b.timeout.map renderTimeout⟩) ∧
    (∀ ls, b.metric = none → b.labels = some ls →
      b.build = .ok ⟨"\x7b" ++ renderLabels ls ++ "\x7d", b.time, b.timeout.map renderTimeout⟩) ∧
    (b.build = .error BuilderError.IllegalVectorSelector ↔ b.metric = none ∧ b.labels = none) := by
  rcases b with ⟨m, ls, t, tmo⟩
  cases m <;> cases ls <;> simp [InstantQueryBuilder.build]

/-- C2 witness: a builder with metric and one matcher builds the braced
selector; the empty builder fails with `IllegalVectorSelector`. -/
theorem build_case_analysis_spot :
    InstantQueryBuilder.build ⟨some "up", some [Label.With "code" "200"], none, none⟩ =
      .ok ⟨"up\x7bcode=\"200\"\x7d", none, none⟩ ∧
    InstantQueryBuilder.build ⟨none, none, none, none⟩ =
      .error BuilderError.IllegalVectorSelector :=
  ⟨(build_case_analysis ⟨some "up", some [Label.With "code" "200"], none, none⟩).1
      "up" [Label.With "code" "200"] rfl rfl,
   (build_case_analysis ⟨none, none, none, none⟩).2.2.2.mpr ⟨rfl, rfl⟩⟩

/-- C3: `timeout` always returns `Ok`, and when the duration parse
fails the builder is returned unchanged. -/
theorem timeout_never_errors (b : InstantQueryBuilder) (s : String) :
    (∃ b', b.timeoutOp s = .ok b') ∧
    (∀ e, collectDurations (tokenize s.data) = .error e → b.timeoutOp s = .ok b) := by
  unfold InstantQueryBuilder.timeoutOp
  cases h : collectDurations (tokenize s.data) <;> simp [h]

/-- C3 witness: `"bad"` fails to parse (token `"bad"` has suffix `d`
but a non-numeric prefix), yet `timeout` returns `Ok` with the builder
unchanged. -/
theorem timeout_never_errors_spot :
    InstantQueryBuilder.mkDefault.timeoutOp "bad" = .ok InstantQueryBuilder.mkDefault :=
  (timeout_never_errors InstantQueryBuilder.mkDefault "bad").2 BuilderError.InvalidTimeDuration rfl

/-- C4: `no_match_label` seeds an absent matcher sequence with a
regex-match (`Matches`) entry, and appends a regex-not-match
(`Clashes`) entry to an existing sequence. -/
theorem no_match_label_seeding (b : InstantQueryBuilder) (l v : String) :
    (b.labels = none → (b.no_match_label l v).labels = some [Label.Matches l v]) ∧
    (∀ ls, b.labels = some ls → (b.no_match_label l v).labels = some (ls ++ [Label.Clashes l v])) := by
  rcases b with ⟨m, ls, t, tmo⟩
  cases ls <;> simp [InstantQueryBuilder.no_match_label]

/-- C4 witness: seeding from the empty builder yields a `Matches`
entry; a second call appends a `Clashes` entry. -/
theorem no_match_label_seeding_spot :
    (InstantQueryBuilder.mkDefault.no_match_label "code" "4..").labels =
      some [Label.Matches "code" "4.."] ∧
    ((InstantQueryBuilder.mkDefault.no_match_label "code" "4..").no_match_label "job" "x").labels =
      some [Label.Matches "code" "4..", Label.Clashes "job" "x"] :=
  ⟨(no_match_label_seeding InstantQueryBuilder.mkDefault "code" "4..").1 rfl,
   (no_match_label_seeding (InstantQueryBuilder.mkDefault.no_match_label "code" "4..") "job" "x").2
      [Label.Matches "code" "4.."] rfl⟩

/-- C5: exactly the five reserved keywords are rejected with
`InvalidMetricName`; every other string (the empty string included) is
stored verbatim. -/
theorem metric_reserved_set (b : InstantQueryBuilder) (m : String) :
    ((m = "bool" ∨ m = "on" ∨ m = "ignoring" ∨ m = "group_left" ∨ m = "group_right") →
      b.metricOp m = .error BuilderError.InvalidMetricName) ∧
    (¬(m = "bool" ∨ m = "on" ∨ m = "ignoring" ∨ m = "group_left" ∨ m = "group_right") →
      b.metricOp m = .ok { b with metric := some m }) := by
  constructor
  · intro h
    simp [InstantQueryBuilder.metricOp, h]
  · intro h
    simp [InstantQueryBuilder.metricOp, h]

/-- C5 witness: `"on"` is rejected; the empty string is accepted and
stored verbatim. -/
theorem metric_reserved_set_spot :
    InstantQueryBuilder.mkDefault.metricOp "on" = .error BuilderError.InvalidMetricName ∧
    InstantQueryBuilder.mkDefault.metricOp "" = .ok ⟨some "", none, none, none⟩ :=
  ⟨(metric_reserved_set InstantQueryBuilder.mkDefault "on").1 (Or.inr (Or.inl rfl)),
   (metric_reserved_set InstantQueryBuilder.mkDefault "").2 (by decide)⟩

/-- C6: each matcher kind renders as `name<op>"value"` with its own
operator, matchers are comma-joined, and insertion order is preserved
(two successive `with_label` calls append in call order). -/
theorem label_render_and_order (b : InstantQueryBuilder) (n1 v1 n2 v2 : String) :
    Label.render (Label.With n1 v1) = n1 ++ "=\"" ++ v1 ++ "\"" ∧
    Label.render (Label.Without n1 v1) = n1 ++ "!=\"" ++ v1 ++ "\"" ∧
    Label.render (Label.Matches n1 v1) = n1 ++ "=~\"" ++ v1 ++ "\"" ∧
    Label.render (Label.Clashes n1 v1) = n1 ++ "!~\"" ++ v1 ++ "\"" ∧
    ((b.with_label n1 v1).with_label n2 v2).labels =
      some (b.labels.getD [] ++ [Label.With n1 v1, Label.With n2 v2]) ∧
    renderLabels [Label.With n1 v1, Label.With n2 v2] =
      n1 ++ "=\"" ++ v1 ++ "\"" ++ "," ++ n2 ++ "=\"" ++ v2 ++ "\"" := by
  refine ⟨rfl, rfl, rfl, rfl, ?_, ?_⟩
  · rcases b with ⟨m, ls, t, tmo⟩
    cases ls <;> simp [InstantQueryBuilder.with_label]
  · rw [renderLabels_pair]
    simp [Label.render, String.append_assoc]

/-- C7: `at` tries the numeric parse first and stores its
canonicalization, falls back to the RFC3339 parse, and fails with
`InvalidTimeSpecifier` exactly when both parses fail. -/
theorem at_parse_structure (fparse dtparse : String → Option String)
    (b : InstantQueryBuilder) (s : String) :
    (InstantQueryBuilder.atOp fparse dtparse b s = .error BuilderError.InvalidTimeSpecifier ↔
      fparse s = none ∧ dtparse s = none) ∧
    (∀ t, fparse s = some t →
      InstantQueryBuilder.atOp fparse dtparse b s = .ok { b with time := some t }) ∧
    (∀ t, fparse s = none → dtparse s = some t →
      InstantQueryBuilder.atOp fparse dtparse b s = .ok { b with time := some t }) := by
  unfold InstantQueryBuilder.atOp
  cases hf : fparse s <;> cases hd : dtparse s <;> simp

/-- Sample stand-in for the external `f64::from_str` round-trip
(recognizes one numeric literal). -/
def numParseSample : String → Option String :=
  fun s => if s = "1618922012" then some "1618922012" else none

/-- Sample stand-in for the external RFC3339 round-trip (recognizes
one date-time literal). -/
def rfcParseSample : String → Option String :=
  fun s => if s = "2021-04-20T14:33:32+02:00" then some "2021-04-20T14:33:32+02:00" else none

/-- C7 witness: with concrete sample parsers, a numeric literal is
stored via the numeric branch, an RFC3339 literal via the fallback
branch, and an unparseable string yields `InvalidTimeSpecifier`. -/
theorem at_parse_structure_spot :
    InstantQueryBuilder.atOp numParseSample rfcParseSample InstantQueryBuilder.mkDefault
      "1618922012" = .ok ⟨none, none, some "1618922012", none⟩ ∧
    InstantQueryBuilder.atOp numParseSample rfcParseSample InstantQueryBuilder.mkDefault
      "2021-04-20T14:33:32+02:00" = .ok ⟨none, none, some "2021-04-20T14:33:32+02:00", none⟩ ∧
    InstantQueryBuilder.atOp numParseSample rfcParseSample InstantQueryBuilder.mkDefault
      "nonsense" = .error BuilderError.InvalidTimeSpecifier :=
  ⟨(at_parse_structure numParseSample rfcParseSample InstantQueryBuilder.mkDefault
      "1618922012").2.1 "1618922012" rfl,
   (at_parse_structure numParseSample rfcParseSample InstantQueryBuilder.mkDefault
      "2021-04-20T14:33:32+02:00").2.2 "2021-04-20T14:33:32+02:00" rfl rfl,
   (at_parse_structure numParseSample rfcParseSample InstantQueryBuilder.mkDefault
      "nonsense").1.mpr ⟨rfl, rfl⟩⟩

/-- C8: the instant endpoint is `/query` with `query` always present
and `time`/`timeout` present iff set; the range endpoint is
`/query_range` with `query`, `start`, `end`, `step` always present and
`timeout` present iff set. -/
theorem query_params_shape (iq : InstantQuery) (rq : RangeQuery) :
    iq.get_query_endpoint = "/query" ∧
    rq.get_query_endpoint = "/query_range" ∧
    ("query", iq.query) ∈ iq.get_query_params ∧
    (∀ t, ("time", t) ∈ iq.get_query_params ↔ iq.time = some t) ∧
    (∀ t, ("timeout", t) ∈ iq.get_query_params ↔ iq.timeout = some t) ∧
    ("query", rq.query) ∈ rq.get_query_params ∧
    ("start", rq.start) ∈ rq.get_query_params ∧
    ("end", rq.«end») ∈ rq.get_query_params ∧
    ("step", rq.step) ∈ rq.get_query_params ∧
    (∀ t, ("timeout", t) ∈ rq.get_query_params ↔ rq.timeout = some t) := by
  rcases iq with ⟨q, ti, tmo⟩
  rcases rq with ⟨q2, s2, e2, st2, to2⟩
  cases ti <;> cases tmo <;> cases to2 <;>
    simp [InstantQuery.get_query_params, RangeQuery.get_query_params,
      InstantQuery.get_query_endpoint, RangeQuery.get_query_endpoint, eq_comm]

/-- C10: a `timeout` call never touches the metric, label or time
fields, and when the new input fails to parse the previously stored
timeout value is kept intact. -/
theorem timeout_preserves_fields (b b' : InstantQueryBuilder) (s : String)
    (h : b.timeoutOp s = .ok b') :
    b'.metric = b.metric ∧ b'.labels = b.labels ∧ b'.time = b.time ∧
    (∀ e, collectDurations (tokenize s.data) = .error e → b'.timeout = b.timeout) := by
  unfold InstantQueryBuilder.timeoutOp at h
  cases hc : collectDurations (tokenize s.data) <;> simp [hc] at h <;> subst h
  · exact ⟨rfl, rfl, rfl, fun e he => rfl⟩
  · exact ⟨rfl, rfl, rfl, fun e he => by simp [hc] at he⟩

/-- C10 witness: a builder holding a previously parsed `30s` timeout,
fed the unparseable input `"bad"`, keeps `30s` and its other fields. -/
theorem timeout_preserves_fields_spot :
    (InstantQueryBuilder.mk (some "up") none (some "1") (some [Duration.Seconds 30])).timeout =
      some [Duration.Seconds 30] :=
  (timeout_preserves_fields
      (InstantQueryBuilder.mk (some "up") none (some "1") (some [Duration.Seconds 30]))
      (InstantQueryBuilder.mk (some "up") none (some "1") (some [Duration.Seconds 30]))
      "bad" rfl).2.2.2 BuilderError.InvalidTimeDuration rfl

/-- C9: the stored duration list never gains a `Milliseconds` entry —
tokenization severs every `"ms"` suffix, leaving a bare `"s"` fragment
whose empty numeric prefix fails to parse — so any input containing
`"ms"` fails as a whole and the timeout field is left unchanged. -/
theorem timeout_no_milliseconds (b b' : InstantQueryBuilder) (s : String)
    (h : b.timeoutOp s = .ok b')
    (hprev : ∀ l, b.timeout = some l → ∀ n, Duration.Milliseconds n ∉ l) :
    (∀ l, b'.timeout = some l → ∀ n, Duration.Milliseconds n ∉ l) ∧
    (containsMS s.data = true → b' = b) := by
  unfold InstantQueryBuilder.timeoutOp at h
  cases hc : collectDurations (tokenize s.data) with
  | error e =>
    rw [hc] at h
    simp only [Except.ok.injEq] at h
    subst h
    exact ⟨hprev, fun _ => rfl⟩
  | ok ds =>
    rw [hc] at h
    simp only [Except.ok.injEq] at h
    subst h
    constructor
    · intro l hl n hn
      simp only [Option.some.injEq] at hl
      subst hl
      have hmem : Duration.Milliseconds n ∈ ds := mem_sortDurations.mp hn
      obtain ⟨t, ht, hok⟩ := collectDurations_ok_mem hc _ hmem
      have hgood := tokenize_units_last s.data t ht
      have hf := endsWithMs_eq_false_of_units_last hgood
      rw [parseDurationToken_ms_shape hok] at hf
      simp at hf
    · intro hcms
      exfalso
      have hbare := tokenize_has_bare_s hcms
      obtain ⟨e', hce⟩ := collectDurations_error_of_mem hbare rfl
      rw [hce] at hc
      cases hc

/-- C9 witness: parsing `"1m30s"` succeeds and the stored (sorted)
list `[30s, 1m]` contains no `Milliseconds` entry. -/
theorem timeout_no_milliseconds_spot :
    Duration.Milliseconds 500 ∉ [Duration.Seconds 30, Duration.Minutes 1] :=
  (timeout_no_milliseconds InstantQueryBuilder.mkDefault
      ⟨none, none, none, some [Duration.Seconds 30, Duration.Minutes 1]⟩
      "1m30s" rfl (fun _ hl => nomatch hl)).1
    [Duration.Seconds 30, Duration.Minutes 1] rfl 500
